import Mathlib

/-!
Verification of the `evil_entropy` repository against its specification.

The development shallowly embeds the two source files:

* `src/lib/php/utils.py` — the uniqid token codec (`uniqid2time`, `time2uniqid`);
* `src/lib/time_approximation/ats.py` — the Adversarial Time Synchronization
  engine (`ATSRequest`, `ATSRequestPair`, `AdversarialTimeSynchronization`).

Python strings are embedded as `List Char`, Python `int` values as `Nat`/`Int`,
wall-clock instants and second counts as `ℚ` (idealising IEEE floats and
`datetime` arithmetic as exact rational arithmetic), and raising an exception
as returning `none` / `Except.error`.
-/

namespace EvilEntropy

/-! ### Python `int(s, 16)`

`uniqid2time` parses its slices with Python's builtin `int(s, 16)`.  The
builtin strips surrounding (ASCII) whitespace, accepts one optional sign,
an optional `0x`/`0X` prefix (optionally followed by a single underscore),
and then one or more hexadecimal digits where single underscores may appear
between digits; anything else raises `ValueError`, embedded here as `none`.
-/

/-- ASCII whitespace stripped by Python's `int` parser (`str.strip`). -/
def isPySpace (c : Char) : Bool :=
  c == ' ' || c == '\t' || c == '\n' || c == '\r' || c == '\x0b' || c == '\x0c'

/-- The value of a hexadecimal digit (`0-9`, `a-f`, `A-F`), `none` otherwise. -/
def hexVal (c : Char) : Option Nat :=
  if 48 ≤ c.toNat ∧ c.toNat ≤ 57 then some (c.toNat - 48)
  else if 97 ≤ c.toNat ∧ c.toNat ≤ 102 then some (c.toNat - 87)
  else if 65 ≤ c.toNat ∧ c.toNat ≤ 70 then some (c.toNat - 55)
  else none

/-- Digit loop of `int(s, 16)`: consumes hex digits, allowing a single
underscore strictly between two digits. -/
def parseHexDigitsGo : Nat → List Char → Option Nat
  | acc, [] => some acc
  | acc, c :: rest =>
    if c = '_' then
      match rest with
      | [] => none
      | c2 :: rest2 =>
        match hexVal c2 with
        | some v => parseHexDigitsGo (acc * 16 + v) rest2
        | none => none
    else
      match hexVal c with
      | some v => parseHexDigitsGo (acc * 16 + v) rest
      | none => none

/-- One-or-more hex digits with embedded single underscores (the part of
`int(s, 16)` after sign and `0x` handling). -/
def parseHexDigits : List Char → Option Nat
  | [] => none
  | c :: rest =>
    match hexVal c with
    | some v => parseHexDigitsGo v rest
    | none => none

/-- After a `0x`/`0X` marker Python allows one optional underscore before
the first digit. -/
def parseHexTail : List Char → Option Nat
  | [] => none
  | c :: rest => if c = '_' then parseHexDigits rest else parseHexDigits (c :: rest)

/-- The unsigned body of `int(s, 16)`: an optional `0x`/`0X` marker followed
by digits. -/
def parseHexBody : List Char → Option Nat
  | c0 :: c1 :: rest =>
    if c0 = '0' ∧ (c1 = 'x' ∨ c1 = 'X') then parseHexTail rest
    else parseHexDigits (c0 :: c1 :: rest)
  | l => parseHexDigits l

/-- Strip leading and trailing ASCII whitespace (Python `str.strip`). -/
def stripSpaces (l : List Char) : List Char :=
  ((l.dropWhile isPySpace).reverse.dropWhile isPySpace).reverse

/-- Sign handling of `int(s, 16)` after whitespace stripping. -/
def pyIntHexCore : List Char → Option Int
  | [] => none
  | c :: rest =>
    if c = '+' then (parseHexBody rest).map Int.ofNat
    else if c = '-' then (parseHexBody rest).map (fun n => -(n : Int))
    else (parseHexBody (c :: rest)).map Int.ofNat

/-- Python's `int(s, 16)`: `some` of the parsed value, `none` for
`ValueError`. -/
def pyIntHex (s : List Char) : Option Int :=
  pyIntHexCore (stripSpaces s)

/-! ### Python `hex(n)[2:]` for non-negative `n`

`time2uniqid` renders with `hex(unix_time)[2:].zfill(8)`.  For a
non-negative argument — the only case the specification's token format
describes — `hex(n)[2:]` is the lowercase base-16 rendering of `n` with no
leading zeros (and `"0"` for `n = 0`). -/

/-- The lowercase hexadecimal digit character for `d < 16`. -/
def hexDigit (d : Nat) : Char :=
  Char.ofNat (if d < 10 then 48 + d else 87 + d)

/-- Digit-extraction loop for `hex`: fuel-indexed so that it is structural.
Called with `fuel ≥ n` it renders all digits of `n` before `acc`. -/
def toHexAux : Nat → Nat → List Char → List Char
  | _, 0, acc => acc
  | 0, _ + 1, acc => acc
  | fuel + 1, n + 1, acc =>
    toHexAux fuel ((n + 1) / 16) (hexDigit ((n + 1) % 16) :: acc)

/-- Python `hex(n)[2:]` for `n ≥ 0`. -/
def toHex (n : Nat) : List Char :=
  if n = 0 then ['0'] else toHexAux n n []

/-- Python `str.zfill`: left-pad with `'0'` to width `w`. -/
def zfill (w : Nat) (l : List Char) : List Char :=
  List.replicate (w - l.length) '0' ++ l

/-! ### `src/lib/php/utils.py` -/

/-- Python `l[-n:]`: the last `n` characters (the whole string when it is
shorter than `n`). -/
def lastN (n : Nat) (l : List Char) : List Char :=
  l.drop (l.length - n)

/-- `uniqid2time(uniqid)` from `src/lib/php/utils.py`: parse the first 8
characters and the last 5 characters as hexadecimal integers.  A
`ValueError` from either parse (the spec's `FormatError`) is `none`. -/
def uniqid2time (uniqid : List Char) : Option (Int × Int) :=
  match pyIntHex (uniqid.take 8), pyIntHex (lastN 5 uniqid) with
  | some unix_time, some microsecs => some (unix_time, microsecs)
  | _, _ => none

/-- `time2uniqid(unix_time, microsecs)` from `src/lib/php/utils.py`:
`hex(unix_time)[2:].zfill(8) + hex(microsecs)[2:].zfill(5)`. -/
def time2uniqid (unix_time microsecs : Nat) : List Char :=
  zfill 8 (toHex unix_time) ++ zfill 5 (toHex microsecs)

/-! ### `src/lib/time_approximation/ats.py`

Wall-clock instants and durations are embedded as `ℚ` (seconds).  The
`Date` response header is embedded by its `strptime`-parsed timestamp
(`none` when the header is absent); no claim concerns the RFC 1123 string
format itself.  Raising `AttributeError` ("Time was not measured yet."),
the spec's `NotMeasuredError`, is `Except.error ATSError.notMeasured`;
the `TypeError` raised by `strptime(None, ...)` when the header is
absent, the spec's `MissingHeaderError`, is
`Except.error ATSError.missingHeader`. -/

/-- The exceptions `remote_time` raises, by the spec's §7 names:
`notMeasured` for the `AttributeError` of an unfired request,
`missingHeader` for the `TypeError` of `strptime(None, ...)` on a fired
request without a `Date` header. -/
inductive ATSError where
  | notMeasured
  | missingHeader
deriving DecidableEq

/-- An HTTP response as consulted by `ats.py`: only the `Date` header is
read.  `date` is its parsed value, `none` when the header is absent. -/
structure Response where
  date : Option ℚ
deriving DecidableEq

/-- `ATSRequest`: the constructor sets `start_time`, `end_time` and
`response` to `None`; `fire()` populates them. -/
structure ATSRequest where
  url : String
  start_time : Option ℚ
  end_time : Option ℚ
  response : Option Response
deriving DecidableEq

/-- `ATSRequest.__init__(url)`. -/
def ATSRequest.mk0 (url : String) : ATSRequest :=
  { url := url, start_time := none, end_time := none, response := none }

/-- `ATSRequest.fire()`: records the wall clock before and after the
exchange and stores the response.  The HTTP exchange itself is a side
effect outside the model, so the observed instants and response are taken
as arguments. -/
def fire (r : ATSRequest) (t0 t1 : ℚ) (resp : Response) : ATSRequest :=
  { r with start_time := some t0, end_time := some t1, response := some resp }

/-- `ATSRequest.remote_time`: raises `AttributeError` when the request was
never fired; otherwise the `strptime`-parsed `Date` header.  When the
header is absent, `response.headers['Date']` is `None` — the
`email.message.Message` mapping returns `None` for a missing key instead
of raising `KeyError`, so the code's `except KeyError: return None`
branch is dead — and `strptime(None, ...)` raises `TypeError`, the spec's
`MissingHeaderError`. -/
def remote_time (r : ATSRequest) : Except ATSError ℚ :=
  match r.response with
  | none => Except.error ATSError.notMeasured
  | some resp =>
    match resp.date with
    | none => Except.error ATSError.missingHeader
    | some t => Except.ok t

/-- `ATSRequest.local_time_consumption`: `end_time - start_time`, raising
(`none`) when either instant is unset. -/
def local_time_consumption (r : ATSRequest) : Option ℚ :=
  match r.start_time, r.end_time with
  | some s, some e => some (e - s)
  | _, _ => none

/-- `ATSRequestPair`: two requests against the same URL. -/
structure ATSRequestPair where
  r1 : ATSRequest
  r2 : ATSRequest
deriving DecidableEq

/-- Python's `int()` cast on a rational: truncation toward zero (floor of
a non-negative value, ceiling of a negative one). -/
def pyIntTrunc (q : ℚ) : Int :=
  if 0 ≤ q then ⌊q⌋ else ⌈q⌉

/-- `ATSRequestPair.is_useful()`:
`int((r2.remote_time - r1.remote_time).total_seconds()) == 1`.  Any
exception propagating out of the two `remote_time` accesses (unfired
request, absent header) is `none`. -/
def is_useful (p : ATSRequestPair) : Option Bool :=
  match remote_time p.r2, remote_time p.r1 with
  | Except.ok t2, Except.ok t1 => some (pyIntTrunc (t2 - t1) == 1)
  | _, _ => none

/-- `ATSRequestPair.avg_rtt`:
`(r1.local_time_consumption + r2.local_time_consumption).total_seconds() / 2`,
propagating the `AttributeError` (`none`) of an unfired request. -/
def avg_rtt (p : ATSRequestPair) : Option ℚ :=
  match local_time_consumption p.r1, local_time_consumption p.r2 with
  | some d1, some d2 => some ((d1 + d2) / 2)
  | _, _ => none

/-- `AdversarialTimeSynchronization.collect_data(n)`:
`while n > 0` construct, send and test a fresh pair, appending `avg_rtt`
and decrementing `n` only when the pair `is_useful()`.  Each loop
iteration's network interaction is summarised by one element of
`attempts`: the pair's `is_useful()` verdict and its `avg_rtt`.  The
Python loop would block waiting for further pairs when the list runs out;
here it returns the samples gathered so far (the claims only concern runs
in which enough usable pairs arrive). -/
def collect_data : List (Bool × ℚ) → Nat → List ℚ → List ℚ
  | _, 0, rtts => rtts
  | [], _ + 1, rtts => rtts
  | (useful, rtt) :: rest, n + 1, rtts =>
    if useful then collect_data rest n (rtts ++ [rtt])
    else collect_data rest (n + 1) rtts

/-- `AdversarialTimeSynchronization.approximated_delta`:
`deltas = [rtt/2 for rtt in rtts]; sum(deltas) / len(deltas)` — the
`ZeroDivisionError` on an empty sample list (the spec's
`EmptySampleError`) is `none`. -/
def approximated_delta (rtts : List ℚ) : Option ℚ :=
  let deltas := rtts.map (fun rtt => rtt / 2)
  if deltas.length = 0 then none
  else some (deltas.sum / (deltas.length : ℚ))

/-- A pair both of whose requests are fired, with remote clock readings
`t1` and `t2` (used to state the usability-boundary examples). -/
def firedPair (t1 t2 : ℚ) : ATSRequestPair :=
  { r1 := fire (ATSRequest.mk0 "") 0 0 { date := some t1 },
    r2 := fire (ATSRequest.mk0 "") 0 0 { date := some t2 } }

/-- The numeric value of a big-endian string of hexadecimal digits
(non-digit characters count as `0`; only applied to all-digit strings). -/
def digitsVal (l : List Char) : Nat :=
  l.foldl (fun a c => a * 16 + ((hexVal c).getD 0)) 0

/-! ### Lemmas about hexadecimal digits and values -/

theorem hexVal_getD_lt (c : Char) : (hexVal c).getD 0 < 16 := by
  unfold hexVal
  split_ifs <;> simp <;> omega

theorem hexVal_hexDigit {d : Nat} (h : d < 16) : hexVal (hexDigit d) = some d := by
  have key : ∀ d : Fin 16, hexVal (hexDigit d.val) = some d.val := by decide
  exact key ⟨d, h⟩

theorem not_special_of_hexVal {c : Char} (h : (hexVal c).isSome) :
    isPySpace c = false ∧ c ≠ '+' ∧ c ≠ '-' ∧ c ≠ '_' ∧ c ≠ 'x' ∧ c ≠ 'X' := by
  refine ⟨?_, ?_, ?_, ?_, ?_, ?_⟩
  · cases hc : isPySpace c with
    | false => rfl
    | true =>
      have hor : c = ' ' ∨ c = '\t' ∨ c = '\n' ∨ c = '\r' ∨ c = '\x0b' ∨ c = '\x0c' := by
        simpa [isPySpace, or_assoc] using hc
      rcases hor with h1 | h1 | h1 | h1 | h1 | h1 <;>
        (subst h1; exact absurd h (by decide))
  all_goals
    intro he
    subst he
    exact absurd h (by decide)

/-! ### Lemmas about `digitsVal` -/

theorem foldl_digitsVal (l : List Char) (acc : Nat) :
    l.foldl (fun a c => a * 16 + ((hexVal c).getD 0)) acc =
      acc * 16 ^ l.length + digitsVal l := by
  induction l generalizing acc with
  | nil => simp [digitsVal]
  | cons c rest ih =>
    have h1 := ih (acc * 16 + (hexVal c).getD 0)
    have h2 := ih ((hexVal c).getD 0)
    simp only [List.foldl_cons, List.length_cons] at *
    rw [h1]
    have hd : digitsVal (c :: rest) = (hexVal c).getD 0 * 16 ^ rest.length + digitsVal rest := by
      simp only [digitsVal, List.foldl_cons, Nat.zero_mul, Nat.zero_add]
      exact h2
    rw [hd]
    ring

theorem digitsVal_cons (c : Char) (rest : List Char) :
    digitsVal (c :: rest) = (hexVal c).getD 0 * 16 ^ rest.length + digitsVal rest := by
  simp only [digitsVal, List.foldl_cons, Nat.zero_mul, Nat.zero_add]
  exact foldl_digitsVal rest ((hexVal c).getD 0)

theorem digitsVal_append (l1 l2 : List Char) :
    digitsVal (l1 ++ l2) = digitsVal l1 * 16 ^ l2.length + digitsVal l2 := by
  calc digitsVal (l1 ++ l2)
      = List.foldl (fun a c => a * 16 + ((hexVal c).getD 0)) (digitsVal l1) l2 := by
        simp only [digitsVal, List.foldl_append]
    _ = digitsVal l1 * 16 ^ l2.length + digitsVal l2 := foldl_digitsVal l2 (digitsVal l1)

theorem digitsVal_lt (l : List Char) : digitsVal l < 16 ^ l.length := by
  induction l with
  | nil => simp [digitsVal]
  | cons c rest ih =>
    rw [digitsVal_cons, List.length_cons, pow_succ]
    have h1 : (hexVal c).getD 0 < 16 := hexVal_getD_lt c
    calc (hexVal c).getD 0 * 16 ^ rest.length + digitsVal rest
        < (hexVal c).getD 0 * 16 ^ rest.length + 16 ^ rest.length := by omega
      _ = ((hexVal c).getD 0 + 1) * 16 ^ rest.length := by ring
      _ ≤ 16 * 16 ^ rest.length := by
          have : (hexVal c).getD 0 + 1 ≤ 16 := h1
          exact Nat.mul_le_mul_right _ this
      _ = 16 ^ rest.length * 16 := by ring

theorem digitsVal_replicate_zero (k : Nat) : digitsVal (List.replicate k '0') = 0 := by
  induction k with
  | zero => simp [digitsVal]
  | succ k ih =>
    rw [List.replicate_succ, digitsVal_cons, ih]
    simp [hexVal]

/-! ### Lemmas about the `int(s, 16)` parser on all-digit strings -/

theorem stripSpaces_of_nospace (l : List Char)
    (h : ∀ c ∈ l, isPySpace c = false) : stripSpaces l = l := by
  have drop1 : ∀ m : List Char, (∀ c ∈ m, isPySpace c = false) →
      m.dropWhile isPySpace = m := by
    intro m hm
    cases m with
    | nil => rfl
    | cons c t =>
      rw [List.dropWhile_cons]
      simp [hm c (List.mem_cons_self c t)]
  unfold stripSpaces
  rw [drop1 l h, drop1 l.reverse (fun c hc => h c (List.mem_reverse.mp hc)),
    List.reverse_reverse]

theorem parseHexDigitsGo_of_digits (l : List Char) (acc : Nat)
    (h : ∀ c ∈ l, (hexVal c).isSome) :
    parseHexDigitsGo acc l =
      some (l.foldl (fun a c => a * 16 + ((hexVal c).getD 0)) acc) := by
  induction l generalizing acc with
  | nil => rfl
  | cons c rest ih =>
    have hc : (hexVal c).isSome := h c (List.mem_cons_self c rest)
    obtain ⟨v, hv⟩ := Option.isSome_iff_exists.mp hc
    have hne := (not_special_of_hexVal hc).2.2.2.1
    unfold parseHexDigitsGo
    rw [if_neg hne, hv]
    simp only [List.foldl_cons, hv, Option.getD_some]
    exact ih (acc * 16 + v) (fun c' hc' => h c' (List.mem_cons_of_mem c hc'))

theorem parseHexDigits_of_digits (l : List Char) (hne : l ≠ [])
    (h : ∀ c ∈ l, (hexVal c).isSome) :
    parseHexDigits l = some (digitsVal l) := by
  cases l with
  | nil => exact absurd rfl hne
  | cons c rest =>
    have hc : (hexVal c).isSome := h c (List.mem_cons_self c rest)
    obtain ⟨v, hv⟩ := Option.isSome_iff_exists.mp hc
    simp only [parseHexDigits, hv]
    rw [parseHexDigitsGo_of_digits rest v (fun c' hc' => h c' (List.mem_cons_of_mem c hc'))]
    simp only [digitsVal, List.foldl_cons, Nat.zero_mul, Nat.zero_add, hv, Option.getD_some]

theorem parseHexBody_of_digits (l : List Char) (hne : l ≠ [])
    (h : ∀ c ∈ l, (hexVal c).isSome) :
    parseHexBody l = some (digitsVal l) := by
  match l with
  | [] => exact absurd rfl hne
  | [c] =>
    rw [show parseHexBody [c] = parseHexDigits [c] from rfl]
    exact parseHexDigits_of_digits [c] (by simp) h
  | c0 :: c1 :: rest =>
    have hc1 : (hexVal c1).isSome := h c1 (by simp)
    have hx := (not_special_of_hexVal hc1).2.2.2.2
    have hcond : ¬(c0 = '0' ∧ (c1 = 'x' ∨ c1 = 'X')) := by
      rintro ⟨-, hxX⟩
      rcases hxX with he | he
      · exact hx.1 he
      · exact hx.2 he
    simp only [parseHexBody, if_neg hcond]
    exact parseHexDigits_of_digits _ (by simp) h

theorem pyIntHex_of_digits (l : List Char) (hne : l ≠ [])
    (h : ∀ c ∈ l, (hexVal c).isSome) :
    pyIntHex l = some (Int.ofNat (digitsVal l)) := by
  unfold pyIntHex
  rw [stripSpaces_of_nospace l (fun c hc => (not_special_of_hexVal (h c hc)).1)]
  cases l with
  | nil => exact absurd rfl hne
  | cons c rest =>
    have hc : (hexVal c).isSome := h c (List.mem_cons_self c rest)
    have hspec := not_special_of_hexVal hc
    simp only [pyIntHexCore, if_neg hspec.2.1, if_neg hspec.2.2.1]
    rw [parseHexBody_of_digits _ hne h]
    rfl

/-! ### Lemmas about `toHex` and `zfill` -/

theorem toHexAux_acc (fuel n : Nat) (acc : List Char) :
    toHexAux fuel n acc = toHexAux fuel n [] ++ acc := by
  induction fuel generalizing n acc with
  | zero => cases n <;> rfl
  | succ fuel ih =>
    cases n with
    | zero => rfl
    | succ m =>
      rw [show toHexAux (fuel + 1) (m + 1) acc =
            toHexAux fuel ((m + 1) / 16) (hexDigit ((m + 1) % 16) :: acc) from rfl,
          show toHexAux (fuel + 1) (m + 1) [] =
            toHexAux fuel ((m + 1) / 16) [hexDigit ((m + 1) % 16)] from rfl,
          ih ((m + 1) / 16) (hexDigit ((m + 1) % 16) :: acc),
          ih ((m + 1) / 16) [hexDigit ((m + 1) % 16)],
          List.append_assoc]
      rfl

theorem digitsVal_toHexAux (fuel : Nat) :
    ∀ n, n ≤ fuel → digitsVal (toHexAux fuel n []) = n := by
  induction fuel with
  | zero =>
    intro n hn
    interval_cases n
    simp [toHexAux, digitsVal]
  | succ fuel ih =>
    intro n hn
    cases n with
    | zero => simp [toHexAux, digitsVal]
    | succ m =>
      rw [show toHexAux (fuel + 1) (m + 1) [] =
            toHexAux fuel ((m + 1) / 16) [hexDigit ((m + 1) % 16)] from rfl,
          toHexAux_acc, digitsVal_append]
      have hdiv : (m + 1) / 16 ≤ fuel := by omega
      rw [ih ((m + 1) / 16) hdiv]
      have hmod : (m + 1) % 16 < 16 := Nat.mod_lt _ (by norm_num)
      have : digitsVal [hexDigit ((m + 1) % 16)] = (m + 1) % 16 := by
        rw [digitsVal_cons, hexVal_hexDigit hmod]
        simp [digitsVal]
      rw [this]
      simp only [List.length_singleton, pow_one]
      omega

theorem mem_toHexAux_isSome (fuel : Nat) :
    ∀ n, ∀ c ∈ toHexAux fuel n [], (hexVal c).isSome := by
  induction fuel with
  | zero => intro n c hc; cases n <;> simp [toHexAux] at hc
  | succ fuel ih =>
    intro n c hc
    cases n with
    | zero => simp [toHexAux] at hc
    | succ m =>
      rw [show toHexAux (fuel + 1) (m + 1) [] =
            toHexAux fuel ((m + 1) / 16) [hexDigit ((m + 1) % 16)] from rfl,
          toHexAux_acc] at hc
      rcases List.mem_append.mp hc with h1 | h1
      · exact ih ((m + 1) / 16) c h1
      · have hmod : (m + 1) % 16 < 16 := Nat.mod_lt _ (by norm_num)
        rcases List.mem_singleton.mp h1 with rfl
        rw [hexVal_hexDigit hmod]
        rfl

theorem length_toHexAux_le (fuel : Nat) :
    ∀ n k, n ≤ fuel → n < 16 ^ k → (toHexAux fuel n []).length ≤ k := by
  induction fuel with
  | zero =>
    intro n k hn _
    interval_cases n
    simp [toHexAux]
  | succ fuel ih =>
    intro n k hn hk
    cases n with
    | zero => simp [toHexAux]
    | succ m =>
      cases k with
      | zero => simp at hk
      | succ k =>
        rw [show toHexAux (fuel + 1) (m + 1) [] =
              toHexAux fuel ((m + 1) / 16) [hexDigit ((m + 1) % 16)] from rfl,
            toHexAux_acc, List.length_append, List.length_singleton]
        have hdiv : (m + 1) / 16 ≤ fuel := by omega
        have hlt : (m + 1) / 16 < 16 ^ k := by
          rw [Nat.div_lt_iff_lt_mul (by norm_num : 0 < 16)]
          calc m + 1 < 16 ^ (k + 1) := hk
            _ = 16 ^ k * 16 := by rw [pow_succ]
        have := ih ((m + 1) / 16) k hdiv hlt
        omega

theorem length_toHexAux_ge (fuel : Nat) :
    ∀ n k, n ≤ fuel → 16 ^ k ≤ n → k < (toHexAux fuel n []).length := by
  induction fuel with
  | zero =>
    intro n k hn hk
    interval_cases n
    exact absurd hk (pow_pos (by norm_num : (0:ℕ) < 16) k).not_le
  | succ fuel ih =>
    intro n k hn hk
    cases n with
    | zero => exact absurd hk (pow_pos (by norm_num : (0:ℕ) < 16) k).not_le
    | succ m =>
      rw [show toHexAux (fuel + 1) (m + 1) [] =
            toHexAux fuel ((m + 1) / 16) [hexDigit ((m + 1) % 16)] from rfl,
          toHexAux_acc, List.length_append, List.length_singleton]
      cases k with
      | zero => omega
      | succ k =>
        have hdiv : (m + 1) / 16 ≤ fuel := by omega
        have hge : 16 ^ k ≤ (m + 1) / 16 := by
          rw [Nat.le_div_iff_mul_le (by norm_num : 0 < 16)]
          calc 16 ^ k * 16 = 16 ^ (k + 1) := (pow_succ 16 k).symm
            _ ≤ m + 1 := hk
        have := ih ((m + 1) / 16) k hdiv hge
        omega

theorem digitsVal_toHex (n : Nat) : digitsVal (toHex n) = n := by
  unfold toHex
  split_ifs with h
  · subst h
    simp [digitsVal, hexVal]
  · exact digitsVal_toHexAux n n le_rfl

theorem mem_toHex_isSome (n : Nat) : ∀ c ∈ toHex n, (hexVal c).isSome := by
  unfold toHex
  split_ifs with h
  · intro c hc
    rcases List.mem_singleton.mp hc with rfl
    rfl
  · exact mem_toHexAux_isSome n n

theorem toHex_ne_nil (n : Nat) : toHex n ≠ [] := by
  unfold toHex
  split_ifs with h
  · simp
  · have : 16 ^ 0 ≤ n := by omega
    have := length_toHexAux_ge n n 0 le_rfl this
    intro hnil
    rw [hnil] at this
    simp at this

theorem length_toHex_le {n k : Nat} (hk : 1 ≤ k) (h : n < 16 ^ k) :
    (toHex n).length ≤ k := by
  unfold toHex
  split_ifs with h0
  · simpa using hk
  · exact length_toHexAux_le n n k le_rfl h

theorem length_toHex_ge {n k : Nat} (h : 16 ^ k ≤ n) : k < (toHex n).length := by
  unfold toHex
  split_ifs with h0
  · subst h0
    exact absurd h (pow_pos (by norm_num : (0:ℕ) < 16) k).not_le
  · exact length_toHexAux_ge n n k le_rfl h

theorem length_zfill {w : Nat} {l : List Char} (h : l.length ≤ w) :
    (zfill w l).length = w := by
  unfold zfill
  rw [List.length_append, List.length_replicate]
  omega

theorem digitsVal_zfill (w : Nat) (l : List Char) :
    digitsVal (zfill w l) = digitsVal l := by
  unfold zfill
  rw [digitsVal_append, digitsVal_replicate_zero]
  ring

theorem mem_zfill_isSome (w : Nat) (l : List Char)
    (h : ∀ c ∈ l, (hexVal c).isSome) : ∀ c ∈ zfill w l, (hexVal c).isSome := by
  intro c hc
  rcases List.mem_append.mp hc with h1 | h1
  · rcases List.eq_of_mem_replicate h1 with rfl
    rfl
  · exact h c h1

theorem zfill_ne_nil {w : Nat} {l : List Char} (h : l ≠ []) : zfill w l ≠ [] := by
  unfold zfill
  intro hc
  rcases List.append_eq_nil.mp hc with ⟨-, h2⟩
  exact h h2

theorem take_len_append {α : Type} (l1 l2 : List α) {n : Nat} (h : l1.length = n) :
    (l1 ++ l2).take n = l1 := by
  subst h
  exact List.take_left _ _

theorem drop_len_append {α : Type} (l1 l2 : List α) {n : Nat} (h : l1.length = n) :
    (l1 ++ l2).drop n = l2 := by
  subst h
  exact List.drop_left _ _

theorem pyIntHex_zfill_toHex (w n : Nat) :
    pyIntHex (zfill w (toHex n)) = some (Int.ofNat n) := by
  rw [pyIntHex_of_digits _ (zfill_ne_nil (toHex_ne_nil n))
      (mem_zfill_isSome _ _ (mem_toHex_isSome n)),
    digitsVal_zfill, digitsVal_toHex]

/-! ### Claims about the codec -/

/-- C1: for every seconds value `s` in `[0, 0xFFFFFFFF]` and sub-second
value `u` in `[0, 0xFFFFF]`, `uniqid2time (time2uniqid s u) = (s, u)`. -/
theorem uniqid2time_time2uniqid (s u : Nat)
    (hs : s ≤ 0xFFFFFFFF) (hu : u ≤ 0xFFFFF) :
    uniqid2time (time2uniqid s u) = some ((s : Int), (u : Int)) := by
  have hsl : (toHex s).length ≤ 8 :=
    length_toHex_le (by norm_num) (lt_of_le_of_lt hs (by norm_num))
  have hul : (toHex u).length ≤ 5 :=
    length_toHex_le (by norm_num) (lt_of_le_of_lt hu (by norm_num))
  have hA : (zfill 8 (toHex s)).length = 8 := length_zfill hsl
  have hB : (zfill 5 (toHex u)).length = 5 := length_zfill hul
  have hlen : (zfill 8 (toHex s) ++ zfill 5 (toHex u)).length = 13 := by
    rw [List.length_append, hA, hB]
  have htake : (zfill 8 (toHex s) ++ zfill 5 (toHex u)).take 8 = zfill 8 (toHex s) :=
    take_len_append _ _ hA
  have hdrop : lastN 5 (zfill 8 (toHex s) ++ zfill 5 (toHex u)) = zfill 5 (toHex u) := by
    unfold lastN
    rw [hlen, show (13 - 5 : Nat) = 8 from rfl]
    exact drop_len_append _ _ hA
  simp only [time2uniqid, uniqid2time, htake, hdrop, pyIntHex_zfill_toHex]
  rfl

/-- Witness for C1 at `s = 1577836800`, `u = 74565`. -/
theorem uniqid2time_time2uniqid_witness :
    (1577836800 ≤ 0xFFFFFFFF ∧ 74565 ≤ 0xFFFFF) ∧
      uniqid2time (time2uniqid 1577836800 74565) =
        some ((1577836800 : Int), (74565 : Int)) :=
  ⟨⟨by norm_num, by norm_num⟩,
    uniqid2time_time2uniqid 1577836800 74565 (by norm_num) (by norm_num)⟩

/-- C5 counterexample: `uniqid2time` performs no length check and no
hex-digit-only check: the 1-character token `"0"` and the 13-character
token `"+123456712345"` (whose first-8 slice contains the non-hexadecimal
character `'+'`) both decode without error. -/
theorem uniqid2time_short_token_decodes :
    uniqid2time ("0".data) = some (0, 0)
    ∧ uniqid2time ("+123456712345".data) = some (19088743, 74565) :=
  ⟨by decide, by decide⟩

/-- C5 amended: `uniqid2time` fails exactly when Python's `int(·, 16)`
rejects the first-8-character slice or the last-5-character slice — there
is no minimum-length requirement, and a non-empty all-hex-digit token of
any length decodes successfully. -/
theorem uniqid2time_failure_iff (token : List Char) :
    (uniqid2time token = none ↔
      (pyIntHex (token.take 8) = none ∨ pyIntHex (lastN 5 token) = none))
    ∧ (token ≠ [] → (∀ c ∈ token, (hexVal c).isSome) →
        (uniqid2time token).isSome) := by
  constructor
  · unfold uniqid2time
    rcases h1 : pyIntHex (token.take 8) with _ | a <;>
      rcases h2 : pyIntHex (lastN 5 token) with _ | b <;> simp
  · intro hne hall
    have htne : token.take 8 ≠ [] := by
      cases token with
      | nil => exact absurd rfl hne
      | cons c t => simp
    have hlne : lastN 5 token ≠ [] := by
      have hp : 0 < token.length := List.length_pos.mpr hne
      have hl : (lastN 5 token).length = token.length - (token.length - 5) := by
        unfold lastN
        rw [List.length_drop]
      intro hc
      rw [hc] at hl
      simp only [List.length_nil] at hl
      omega
    rw [show uniqid2time token =
        match pyIntHex (token.take 8), pyIntHex (lastN 5 token) with
        | some unix_time, some microsecs => some (unix_time, microsecs)
        | _, _ => none from rfl,
      pyIntHex_of_digits _ htne (fun c hc => hall c (List.take_subset _ _ hc)),
      pyIntHex_of_digits _ hlne (fun c hc => hall c (List.drop_subset _ _ hc))]
    rfl

/-- Witness for the amended C5 at the 2-character hex token `"ab"`. -/
theorem uniqid2time_failure_iff_witness :
    ("ab".data ≠ [] ∧ ∀ c ∈ "ab".data, (hexVal c).isSome)
    ∧ (uniqid2time "ab".data).isSome :=
  ⟨⟨by decide, by decide⟩,
    (uniqid2time_failure_iff "ab".data).2 (by decide) (by decide)⟩

/-- C8: a token of length at least 13 whose first-8 and last-5 slices are
hexadecimal digit strings decodes to the values of those two slices, and
the result depends only on those two slices. -/
theorem uniqid2time_slices (token : List Char) (hlen : 13 ≤ token.length)
    (h1 : ∀ c ∈ token.take 8, (hexVal c).isSome)
    (h2 : ∀ c ∈ lastN 5 token, (hexVal c).isSome) :
    uniqid2time token =
      some ((digitsVal (token.take 8) : Int), (digitsVal (lastN 5 token) : Int))
    ∧ ∀ token2 : List Char, token2.take 8 = token.take 8 →
        lastN 5 token2 = lastN 5 token → uniqid2time token2 = uniqid2time token := by
  constructor
  · have htl : (token.take 8).length = 8 := by
      rw [List.length_take]
      omega
    have htne : token.take 8 ≠ [] := by
      intro hc
      rw [hc] at htl
      simp at htl
    have hll : (lastN 5 token).length = 5 := by
      unfold lastN
      rw [List.length_drop]
      omega
    have hlne : lastN 5 token ≠ [] := by
      intro hc
      rw [hc] at hll
      simp at hll
    rw [show uniqid2time token =
        match pyIntHex (token.take 8), pyIntHex (lastN 5 token) with
        | some unix_time, some microsecs => some (unix_time, microsecs)
        | _, _ => none from rfl,
      pyIntHex_of_digits _ htne h1, pyIntHex_of_digits _ hlne h2]
    rfl
  · intro token2 ha hb
    simp only [uniqid2time, ha, hb]

/-- Witness for C8 at the 13-character token `"0000000a00001"`. -/
theorem uniqid2time_slices_witness :
    (13 ≤ "0000000a00001".data.length
      ∧ (∀ c ∈ "0000000a00001".data.take 8, (hexVal c).isSome)
      ∧ (∀ c ∈ lastN 5 "0000000a00001".data, (hexVal c).isSome))
    ∧ uniqid2time "0000000a00001".data =
        some ((digitsVal ("0000000a00001".data.take 8) : Int),
          (digitsVal (lastN 5 "0000000a00001".data) : Int)) :=
  ⟨⟨by decide, by decide, by decide⟩,
    (uniqid2time_slices "0000000a00001".data (by decide) (by decide) (by decide)).1⟩

/-- C9: for in-range inputs the token is the 8-character zero-padded hex
seconds followed by the 5-character zero-padded hex sub-second value; in
particular `time2uniqid 0 0 = "0000000000000"` and
`time2uniqid 1 1 = "0000000100001"`. -/
theorem time2uniqid_fixed_width (t u : Nat)
    (ht : t ≤ 0xFFFFFFFF) (hu : u ≤ 0xFFFFF) :
    (time2uniqid t u).length = 13
    ∧ (time2uniqid t u).take 8 = zfill 8 (toHex t)
    ∧ (time2uniqid t u).drop 8 = zfill 5 (toHex u)
    ∧ (zfill 8 (toHex t)).length = 8
    ∧ (zfill 5 (toHex u)).length = 5
    ∧ time2uniqid 0 0 = "0000000000000".data
    ∧ time2uniqid 1 1 = "0000000100001".data := by
  have hA : (zfill 8 (toHex t)).length = 8 :=
    length_zfill (length_toHex_le (by norm_num) (lt_of_le_of_lt ht (by norm_num)))
  have hB : (zfill 5 (toHex u)).length = 5 :=
    length_zfill (length_toHex_le (by norm_num) (lt_of_le_of_lt hu (by norm_num)))
  refine ⟨?_, ?_, ?_, hA, hB, by decide, by decide⟩
  · rw [time2uniqid, List.length_append, hA, hB]
  · rw [time2uniqid]
    exact take_len_append _ _ hA
  · rw [time2uniqid]
    exact drop_len_append _ _ hA

/-- Witness for C9 at `t = 0`, `u = 0`. -/
theorem time2uniqid_fixed_width_witness :
    (0 ≤ 0xFFFFFFFF ∧ 0 ≤ 0xFFFFF) ∧ (time2uniqid 0 0).length = 13 :=
  ⟨⟨by norm_num, by norm_num⟩, (time2uniqid_fixed_width 0 0 (by norm_num) (by norm_num)).1⟩

/-- C10: `time2uniqid` performs no range validation: a seconds value above
`0xFFFFFFFF` produces a token longer than 13 characters which decodes to a
seconds component different from the encoded one (the sub-second component
still round-trips). -/
theorem time2uniqid_out_of_range (t u : Nat)
    (ht : 0xFFFFFFFF < t) (hu : u ≤ 0xFFFFF) :
    13 < (time2uniqid t u).length
    ∧ ∃ tDec : Int, uniqid2time (time2uniqid t u) = some (tDec, (u : Int))
        ∧ tDec ≠ (t : Int) := by
  have h16 : (16 : Nat) ^ 8 ≤ t := le_trans (by norm_num) ht
  have hlt : 8 < (toHex t).length := length_toHex_ge h16
  have hz : zfill 8 (toHex t) = toHex t := by
    unfold zfill
    rw [show 8 - (toHex t).length = 0 by omega]
    simp
  have hB : (zfill 5 (toHex u)).length = 5 :=
    length_zfill (length_toHex_le (by norm_num) (lt_of_le_of_lt hu (by norm_num)))
  have hlen : (time2uniqid t u).length = (toHex t).length + 5 := by
    rw [time2uniqid, hz, List.length_append, hB]
  constructor
  · omega
  · have htake : (time2uniqid t u).take 8 = (toHex t).take 8 := by
      rw [time2uniqid, hz, List.take_append_of_le_length (by omega)]
    have hdrop : lastN 5 (time2uniqid t u) = zfill 5 (toHex u) := by
      unfold lastN
      rw [hlen, show (toHex t).length + 5 - 5 = (toHex t).length from by omega,
        time2uniqid, hz]
      exact List.drop_left _ _
    have htl : ((toHex t).take 8).length = 8 := by
      rw [List.length_take]
      omega
    have htne : (toHex t).take 8 ≠ [] := by
      intro hc
      rw [hc] at htl
      simp at htl
    have hall : ∀ c ∈ (toHex t).take 8, (hexVal c).isSome :=
      fun c hc => mem_toHex_isSome t c (List.take_subset _ _ hc)
    have hval : digitsVal ((toHex t).take 8) < 16 ^ 8 := by
      have := digitsVal_lt ((toHex t).take 8)
      rwa [htl] at this
    refine ⟨(digitsVal ((toHex t).take 8) : Int), ?_, ?_⟩
    · rw [show uniqid2time (time2uniqid t u) =
          match pyIntHex ((time2uniqid t u).take 8),
            pyIntHex (lastN 5 (time2uniqid t u)) with
          | some unix_time, some microsecs => some (unix_time, microsecs)
          | _, _ => none from rfl,
        htake, hdrop, pyIntHex_of_digits _ htne hall, pyIntHex_zfill_toHex]
      rfl
    · have hne : digitsVal ((toHex t).take 8) ≠ t := by omega
      exact_mod_cast hne

/-- Witness for C10 at `t = 0x100000000`, `u = 0`. -/
theorem time2uniqid_out_of_range_witness :
    (0xFFFFFFFF < 0x100000000 ∧ 0 ≤ 0xFFFFF)
    ∧ 13 < (time2uniqid 0x100000000 0).length :=
  ⟨⟨by norm_num, by norm_num⟩,
    (time2uniqid_out_of_range 0x100000000 0 (by norm_num) (by norm_num)).1⟩

/-! ### Claims about the ATS engine -/

theorem collect_data_extends (attempts : List (Bool × ℚ)) :
    ∀ n rtts, ∃ t, collect_data attempts n rtts = rtts ++ t := by
  induction attempts with
  | nil =>
    intro n rtts
    cases n <;> exact ⟨[], (List.append_nil rtts).symm⟩
  | cons a rest ih =>
    intro n rtts
    obtain ⟨b, q⟩ := a
    cases n with
    | zero => exact ⟨[], (List.append_nil rtts).symm⟩
    | succ m =>
      cases b with
      | true =>
        obtain ⟨t, ht⟩ := ih m (rtts ++ [q])
        refine ⟨[q] ++ t, ?_⟩
        simp only [collect_data, if_pos]
        rw [ht, List.append_assoc]
      | false =>
        obtain ⟨t, ht⟩ := ih (m + 1) rtts
        refine ⟨t, ?_⟩
        simp only [collect_data, Bool.false_eq_true, if_false]
        exact ht

theorem collect_data_take (attempts : List (Bool × ℚ)) :
    ∀ n rtts, n ≤ (attempts.filter (fun a => a.1)).length →
      collect_data attempts n rtts =
        rtts ++ (((attempts.filter (fun a => a.1)).take n).map (fun a => a.2)) := by
  induction attempts with
  | nil =>
    intro n rtts h
    simp only [List.filter_nil, List.length_nil, Nat.le_zero] at h
    subst h
    simp [collect_data]
  | cons a rest ih =>
    intro n rtts h
    obtain ⟨b, q⟩ := a
    cases n with
    | zero => simp [collect_data]
    | succ m =>
      cases b with
      | true =>
        have hfil : (((true, q) :: rest).filter (fun a => a.1)) =
            (true, q) :: rest.filter (fun a => a.1) := by
          simp [List.filter_cons]
        rw [hfil] at h
        simp only [List.length_cons, Nat.succ_le_succ_iff] at h
        simp only [collect_data, if_pos]
        rw [ih m (rtts ++ [q]) h, hfil]
        simp [List.append_assoc]
      | false =>
        have hfil : (((false, q) :: rest).filter (fun a => a.1)) =
            rest.filter (fun a => a.1) := by
          simp [List.filter_cons]
        rw [hfil] at h
        simp only [collect_data, Bool.false_eq_true, if_false]
        rw [ih (m + 1) rtts h, hfil]

/-- C2: `is_useful` of a pair of fired requests with remote clock readings
`t1` and `t2` is true iff the truncation toward zero of `t2 - t1` equals
exactly 1; a remote-clock difference of 0.999 s is unusable, exactly
1.000 s usable, 1.999 s usable and 2.000 s unusable. -/
theorem is_useful_spec (p : ATSRequestPair) (t1 t2 : ℚ)
    (h1 : remote_time p.r1 = Except.ok t1)
    (h2 : remote_time p.r2 = Except.ok t2) :
    ((is_useful p = some true ↔ pyIntTrunc (t2 - t1) = 1)
      ∧ (is_useful p = some false ↔ pyIntTrunc (t2 - t1) ≠ 1))
    ∧ is_useful (firedPair 0 (999/1000)) = some false
    ∧ is_useful (firedPair 0 1) = some true
    ∧ is_useful (firedPair 0 (1999/1000)) = some true
    ∧ is_useful (firedPair 0 2) = some false := by
  refine ⟨⟨?_, ?_⟩, ?_, ?_, ?_, ?_⟩
  · simp only [is_useful, h1, h2, Option.some.injEq, beq_iff_eq]
  · simp only [is_useful, h1, h2, Option.some.injEq]
    exact ⟨fun hb => beq_eq_false_iff_ne.mp hb, fun hb => beq_eq_false_iff_ne.mpr hb⟩
  · norm_num [is_useful, firedPair, remote_time, fire, ATSRequest.mk0, pyIntTrunc]
  · norm_num [is_useful, firedPair, remote_time, fire, ATSRequest.mk0, pyIntTrunc]
  · norm_num [is_useful, firedPair, remote_time, fire, ATSRequest.mk0, pyIntTrunc]
  · norm_num [is_useful, firedPair, remote_time, fire, ATSRequest.mk0, pyIntTrunc]

/-- Witness for C2 at a fired pair whose remote clocks read 0 and 3/2. -/
theorem is_useful_spec_witness :
    (remote_time (firedPair 0 (3/2)).r1 = Except.ok 0
      ∧ remote_time (firedPair 0 (3/2)).r2 = Except.ok (3/2))
    ∧ (is_useful (firedPair 0 (3/2)) = some true ↔ pyIntTrunc ((3/2 : ℚ) - 0) = 1) :=
  ⟨⟨rfl, rfl⟩, ((is_useful_spec (firedPair 0 (3/2)) 0 (3/2) rfl rfl).1).1⟩

/-- C3: on a non-empty sample list `approximated_delta` is the mean over
all samples of (sample ÷ 2) — `[0.10, 0.20]` gives `0.075` — and on an
empty sample list it fails (the spec's `EmptySampleError`). -/
theorem approximated_delta_spec (rtts : List ℚ) :
    (rtts ≠ [] → approximated_delta rtts =
      some ((rtts.map (fun rtt => rtt / 2)).sum / (rtts.length : ℚ)))
    ∧ approximated_delta [] = none
    ∧ approximated_delta [1/10, 2/10] = some (3/40) := by
  refine ⟨?_, rfl, ?_⟩
  · intro h
    have hl : (rtts.map (fun rtt => rtt / 2)).length = rtts.length := List.length_map _ _
    simp only [approximated_delta, hl]
    rw [if_neg (fun hc => h (List.length_eq_zero.mp hc))]
  · norm_num [approximated_delta]

/-- Witness for C3 at the sample list `[1/10, 2/10]`. -/
theorem approximated_delta_spec_witness :
    ([(1 : ℚ)/10, 2/10] ≠ [])
    ∧ approximated_delta [1/10, 2/10] =
        some (([(1 : ℚ)/10, 2/10].map (fun rtt => rtt / 2)).sum /
          (([(1 : ℚ)/10, 2/10].length : ℚ))) :=
  ⟨List.cons_ne_nil _ _, (approximated_delta_spec _).1 (List.cons_ne_nil _ _)⟩

/-- C4: `collect_data` only ever appends to the sample list (the prior
samples are a prefix of the result), and whenever the attempt stream
offers at least `n` usable pairs it appends exactly the `avg_rtt` values
of the first `n` usable pairs, discarding unusable ones. -/
theorem collect_data_spec (attempts : List (Bool × ℚ)) (n : Nat) (rtts : List ℚ) :
    (∃ t, collect_data attempts n rtts = rtts ++ t)
    ∧ (n ≤ (attempts.filter (fun a => a.1)).length →
        collect_data attempts n rtts =
          rtts ++ (((attempts.filter (fun a => a.1)).take n).map (fun a => a.2))) :=
  ⟨collect_data_extends attempts n rtts, collect_data_take attempts n rtts⟩

/-- Witness for C4: two usable samples are appended, in order, after one
[and between] unusable attempts, without touching the prior sample. -/
theorem collect_data_spec_witness :
    (2 ≤ (([(false, 5), (true, 1/10), (false, 3), (true, 2/10), (true, 7)] :
        List (Bool × ℚ)).filter (fun a => a.1)).length)
    ∧ collect_data [(false, 5), (true, 1/10), (false, 3), (true, 2/10), (true, 7)] 2 [9] =
        [9] ++ (((([(false, 5), (true, 1/10), (false, 3), (true, 2/10), (true, 7)] :
          List (Bool × ℚ)).filter (fun a => a.1)).take 2).map (fun a => a.2)) :=
  ⟨by simp, (collect_data_spec [(false, 5), (true, 1/10), (false, 3), (true, 2/10), (true, 7)]
    2 [9]).2 (by simp)⟩

/-- C6: `remote_time` before `fire()` fails with the `NotMeasuredError`
`AttributeError`; on a fired request whose response lacks the `Date`
header it fails with the `MissingHeaderError` (the `TypeError` of
`strptime(None, ...)`); on a fired request with the header it returns the
parsed timestamp. -/
theorem remote_time_spec (r : ATSRequest) :
    (r.response = none → remote_time r = Except.error ATSError.notMeasured)
    ∧ (∀ resp, r.response = some resp → resp.date = none →
        remote_time r = Except.error ATSError.missingHeader)
    ∧ (∀ resp t, r.response = some resp → resp.date = some t →
        remote_time r = Except.ok t) := by
  refine ⟨?_, ?_, ?_⟩
  · intro h
    simp only [remote_time, h]
  · intro resp h hd
    simp only [remote_time, h, hd]
  · intro resp t h hd
    simp only [remote_time, h, hd]

/-- Witness for C6: an unfired request raises the `NotMeasuredError`
`AttributeError`, and a fired request without a `Date` header raises the
`MissingHeaderError`. -/
theorem remote_time_spec_witness :
    ((ATSRequest.mk0 "http://x/").response = none
      ∧ remote_time (ATSRequest.mk0 "http://x/") = Except.error ATSError.notMeasured)
    ∧ ((fire (ATSRequest.mk0 "http://x/") 0 1 { date := none }).response =
          some { date := none }
      ∧ remote_time (fire (ATSRequest.mk0 "http://x/") 0 1 { date := none }) =
          Except.error ATSError.missingHeader) :=
  ⟨⟨rfl, (remote_time_spec (ATSRequest.mk0 "http://x/")).1 rfl⟩,
    ⟨rfl, (remote_time_spec (fire (ATSRequest.mk0 "http://x/") 0 1 { date := none })).2.1
      { date := none } rfl rfl⟩⟩

theorem local_time_consumption_none_start {r : ATSRequest} (h : r.start_time = none) :
    local_time_consumption r = none := by
  unfold local_time_consumption
  rw [h]

theorem local_time_consumption_none_end {r : ATSRequest} (h : r.end_time = none) :
    local_time_consumption r = none := by
  unfold local_time_consumption
  rw [h]
  cases r.start_time <;> rfl

theorem avg_rtt_none1 {p : ATSRequestPair} (h : local_time_consumption p.r1 = none) :
    avg_rtt p = none := by
  unfold avg_rtt
  rw [h]

theorem avg_rtt_none2 {p : ATSRequestPair} (h : local_time_consumption p.r2 = none) :
    avg_rtt p = none := by
  unfold avg_rtt
  rw [h]
  cases local_time_consumption p.r1 <;> rfl

/-- A pair whose requests took 0.10 s and 0.14 s (used to state the
`avg_rtt` example). -/
def examplePair : ATSRequestPair :=
  { r1 := fire (ATSRequest.mk0 "") 0 (1/10) { date := none },
    r2 := fire (ATSRequest.mk0 "") 0 (14/100) { date := none } }

/-- C7: for a pair of fired requests `avg_rtt` is the arithmetic mean of
the two elapsed times — elapsed 0.10 s and 0.14 s give 0.12 s — and it
fails when either request has not been fired. -/
theorem avg_rtt_spec (p : ATSRequestPair) (d1 d2 : ℚ) :
    (local_time_consumption p.r1 = some d1 → local_time_consumption p.r2 = some d2 →
      avg_rtt p = some ((d1 + d2) / 2))
    ∧ ((p.r1.start_time = none ∨ p.r1.end_time = none
        ∨ p.r2.start_time = none ∨ p.r2.end_time = none) → avg_rtt p = none)
    ∧ avg_rtt examplePair = some (12/100) := by
  refine ⟨?_, ?_, ?_⟩
  · intro h1 h2
    simp only [avg_rtt, h1, h2]
  · intro h
    rcases h with h | h | h | h
    · exact avg_rtt_none1 (local_time_consumption_none_start h)
    · exact avg_rtt_none1 (local_time_consumption_none_end h)
    · exact avg_rtt_none2 (local_time_consumption_none_start h)
    · exact avg_rtt_none2 (local_time_consumption_none_end h)
  · norm_num [avg_rtt, local_time_consumption, examplePair, fire, ATSRequest.mk0]

/-- Witness for C7 at the 0.10 s / 0.14 s pair. -/
theorem avg_rtt_spec_witness :
    (local_time_consumption examplePair.r1 = some (1/10)
      ∧ local_time_consumption examplePair.r2 = some (14/100))
    ∧ avg_rtt examplePair = some (((1 : ℚ)/10 + 14/100) / 2) :=
  ⟨⟨by norm_num [examplePair, local_time_consumption, fire, ATSRequest.mk0],
    by norm_num [examplePair, local_time_consumption, fire, ATSRequest.mk0]⟩,
    (avg_rtt_spec examplePair (1/10) (14/100)).1
      (by norm_num [examplePair, local_time_consumption, fire, ATSRequest.mk0])
      (by norm_num [examplePair, local_time_consumption, fire, ATSRequest.mk0])⟩

end EvilEntropy

